import Mathlib

/-!
Verification of the playback controller, progress poller, color pipeline and
marketplace downloader of the "my_ownmusic player" repository, shallowly
embedded from src/my_ownmusic player/main.py.  Machine floats of the source
are modelled by exact rationals (all quantities involved are small integer
multiples of 1/20, 1/100 or 1/1000, where double rounding error cannot cross
an integer boundary), and Python int() by truncation toward zero.
-/

/-- Python int() applied to a rational: truncation toward zero. -/
def pyInt (q : ℚ) : ℤ := if 0 ≤ q then ⌊q⌋ else ⌈q⌉

theorem pyInt_of_nonneg {q : ℚ} (h : 0 ≤ q) : pyInt q = ⌊q⌋ := if_pos h

/-- One tick of lerp_color (main.py line 728-732) on a single RGB channel:
r = c1.red() + (c2.red() - c1.red()) * t with t = 0.05, then QColor(int(r)). -/
def lerpChannel (c t : ℤ) : ℤ := pyInt ((c : ℚ) + ((t : ℚ) - (c : ℚ)) * (1/20))

theorem lerpChannel_eq_floor (c t : ℤ) (hc : 0 ≤ c) (ht : 0 ≤ t) :
    lerpChannel c t = ⌊(c : ℚ) + ((t : ℚ) - (c : ℚ)) * (1/20)⌋ := by
  have hcq : (0:ℚ) ≤ (c : ℚ) := by exact_mod_cast hc
  have htq : (0:ℚ) ≤ (t : ℚ) := by exact_mod_cast ht
  unfold lerpChannel
  exact pyInt_of_nonneg (by linarith)

/-- C2 (amended): per channel the tick computes current + (target-current)*0.05
truncated toward zero; it never overshoots (stays inside [min, max]), the
distance to the target never increases, it strictly decreases whenever the
channel is above the target, while a channel below the target moves only when
the gap is at least 20 and stalls for ever once the gap is at most 19. -/
theorem c2_lerp_step (c t : ℤ) (hc : 0 ≤ c) (ht : 0 ≤ t) :
    (c ≤ t → c ≤ lerpChannel c t ∧ lerpChannel c t ≤ t) ∧
    (t ≤ c → t ≤ lerpChannel c t ∧ lerpChannel c t ≤ c) ∧
    (t < c → lerpChannel c t < c) ∧
    (c < t → t - c ≤ 19 → lerpChannel c t = c) ∧
    (c < t → 20 ≤ t - c → c < lerpChannel c t) := by
  have hq := lerpChannel_eq_floor c t hc ht
  refine ⟨?_, ?_, ?_, ?_, ?_⟩
  · intro hle
    have hleq : (c : ℚ) ≤ (t : ℚ) := by exact_mod_cast hle
    constructor
    · rw [hq]
      exact Int.le_floor.mpr (by linarith)
    · rw [hq]
      have hub : (c : ℚ) + ((t : ℚ) - (c : ℚ)) * (1/20) ≤ (t : ℚ) := by linarith
      calc ⌊(c : ℚ) + ((t : ℚ) - (c : ℚ)) * (1/20)⌋ ≤ ⌊(t : ℚ)⌋ :=
            Int.floor_le_floor hub
        _ = t := Int.floor_intCast t
  · intro hle
    have hleq : (t : ℚ) ≤ (c : ℚ) := by exact_mod_cast hle
    constructor
    · rw [hq]
      exact Int.le_floor.mpr (by linarith)
    · rw [hq]
      have hub : (c : ℚ) + ((t : ℚ) - (c : ℚ)) * (1/20) ≤ (c : ℚ) := by linarith
      calc ⌊(c : ℚ) + ((t : ℚ) - (c : ℚ)) * (1/20)⌋ ≤ ⌊(c : ℚ)⌋ :=
            Int.floor_le_floor hub
        _ = c := Int.floor_intCast c
  · intro hlt
    have hltq : (t : ℚ) < (c : ℚ) := by exact_mod_cast hlt
    rw [hq]
    exact Int.floor_lt.mpr (by linarith)
  · intro hlt hgap
    have hltq : (c : ℚ) < (t : ℚ) := by exact_mod_cast hlt
    have hgapq : (t : ℚ) - (c : ℚ) ≤ 19 := by exact_mod_cast hgap
    rw [hq]
    refine Int.floor_eq_iff.mpr ⟨by linarith, by linarith⟩
  · intro hlt hgap
    have hgapq : (20 : ℚ) ≤ (t : ℚ) - (c : ℚ) := by exact_mod_cast hgap
    rw [hq]
    have hlb : ((c + 1 : ℤ) : ℚ) ≤ (c : ℚ) + ((t : ℚ) - (c : ℚ)) * (1/20) := by
      push_cast
      linarith
    have := Int.le_floor.mpr hlb
    omega

/-- C2 counterexample: a channel one above its target reaches the target
exactly after a single tick (int truncation of 0.95 is 0), refuting the
claimed round-to-nearest update and the claim that the current color never
exactly reaches the target. -/
theorem c2_counterexample : lerpChannel 1 0 = 0 := by
  rw [lerpChannel_eq_floor 1 0 (by decide) (by decide)]
  norm_num

/-- C2 witness: concrete instance of the amended lerp-step theorem. -/
theorem c2_witness : (0:ℤ) ≤ lerpChannel 0 255 ∧ lerpChannel 0 255 ≤ 255 :=
  (c2_lerp_step 0 255 (by decide) (by decide)).1 (by decide)

/-- RGB color triple as held by a QColor. -/
abbrev RGB := ℤ × ℤ × ℤ

/-- Commands issued to the pygame mixer and user-visible UI notifications. -/
inductive Effect where
  | fadeout (ms : ℕ)
  | loadTrack (path : String)
  | playMusic
  | playFadeIn (ms : ℕ)
  | playAtStart (seconds : ℚ)
  | playAtLegacy (seconds : ℚ)
  | stopMusic
  | pauseMusic
  | criticalMsg (msg : String)
deriving DecidableEq

/-- State owned by the NeonPlayer widget (main.py lines 419-422, 478-482,
557-559): playlist, current index, transport flags, track length, saved seek
offset, seek-drag flag and the current/target background colors. -/
structure PlayerState where
  playlist : List String
  current_index : ℤ
  playing : Bool
  loop : Bool
  shuffle : Bool
  current_track_length : ℚ
  current_play_offset : ℚ
  seeking : Bool
  bg_color_1 : RGB
  bg_color_2 : RGB
  target_color_1 : RGB
  target_color_2 : RGB
deriving DecidableEq

/-- External-collaborator behavior during one play_track call: mixer busy
flag, crossfade slider value, whether load/play raises (with its message),
and the track length and dominant colors produced by _update_metadata. -/
structure Env where
  busy : Bool
  crossfadeMs : ℕ
  mixerFail : Option String
  metaLength : ℚ
  metaColor1 : RGB
  metaColor2 : RGB

def emptyPath : String := ""

/-- NeonPlayer.play_track (main.py lines 801-830): guarded by
0 <= index < len(playlist); optional fadeout, then load and play; on success
sets playing and publishes metadata; any exception only shows a critical
message box. -/
def playTrack (env : Env) (s : PlayerState) (index : ℤ) : PlayerState × List Effect :=
  if 0 ≤ index ∧ index < (s.playlist.length : ℤ) then
    let path := s.playlist.getD index.toNat emptyPath
    let pre := if env.busy ∧ 0 < env.crossfadeMs then [Effect.fadeout env.crossfadeMs] else []
    match env.mixerFail with
    | some msg => (s, pre ++ [Effect.criticalMsg msg])
    | none =>
        ({ s with playing := true,
                  current_track_length := env.metaLength,
                  target_color_1 := env.metaColor1,
                  target_color_2 := env.metaColor2 },
         pre ++ [Effect.loadTrack path,
                 if 0 < env.crossfadeMs then Effect.playFadeIn env.crossfadeMs
                 else Effect.playMusic])
  else (s, [])

/-- NeonPlayer._seek_to (main.py lines 948-966), main path: stop, restart at
the requested offset (with the positional-argument fallback for older
mixers), remember the offset, and re-pause when the player was paused. -/
def seekTo (supportsStart : Bool) (s : PlayerState) (seconds : ℚ) : PlayerState × List Effect :=
  let playEff := if supportsStart then Effect.playAtStart seconds
                 else Effect.playAtLegacy seconds
  if s.playing then
    ({ s with current_play_offset := seconds, playing := true },
     [Effect.stopMusic, playEff])
  else
    ({ s with current_play_offset := seconds, playing := false },
     [Effect.stopMusic, playEff, Effect.pauseMusic])

/-- NeonPlayer.load_files (main.py lines 758-769): append the chosen paths
and point current_index at 0 when nothing was current. -/
def loadTracksOp (paths : List String) (s : PlayerState) : PlayerState :=
  if paths.isEmpty then s
  else { s with playlist := s.playlist ++ paths,
                current_index := if s.current_index = -1 then 0 else s.current_index }

def extMp3 : String := ".mp3"

def extWav : String := ".wav"

def extOgg : String := ".ogg"

/-- Extension filter of NeonPlayer.load_folder: suffix lower-cased and
compared against the mp3/wav/ogg set. -/
def hasAudioExt (f : String) : Bool :=
  (f.toLower.endsWith extMp3 || f.toLower.endsWith extWav || f.toLower.endsWith extOgg)

/-- NeonPlayer.load_folder (main.py lines 771-787): append every walked file
with an accepted extension; set current_index to 0 when it was -1 and the
playlist is nonempty afterwards. -/
def loadFolderOp (walked : List String) (s : PlayerState) : PlayerState :=
  let pl := s.playlist ++ walked.filter hasAudioExt
  { s with playlist := pl,
           current_index := if s.current_index = -1 ∧ ¬pl.isEmpty then 0
                            else s.current_index }

/-- NeonPlayer._remove_selected (main.py lines 999-1006): pop the selected
row when valid, then clamp current_index to the new last index (or -1 when
the playlist became empty) when it reaches past the shrunken playlist. -/
def removeSelected (row : ℤ) (s : PlayerState) : PlayerState :=
  if 0 ≤ row ∧ row < (s.playlist.length : ℤ) then
    let pl := s.playlist.eraseIdx row.toNat
    { s with playlist := pl,
             current_index := if (pl.length : ℤ) ≤ s.current_index
                              then (pl.length : ℤ) - 1 else s.current_index }
  else s

/-- NeonPlayer._clear_playlist (main.py lines 1008-1017): empty the playlist,
reset current_index to -1 and stop playback. -/
def clearPlaylist (s : PlayerState) : PlayerState :=
  { s with playlist := [], current_index := -1, playing := false }

/-- NeonPlayer.next_track (main.py lines 1078-1084): no-op on an empty
playlist; either a random index (shuffle) or (current_index + 1) mod len,
then play_track. The rand argument stands for random.randint(0, len-1). -/
def nextTrack (env : Env) (rand : ℕ) (s : PlayerState) : PlayerState :=
  if s.playlist.isEmpty then s
  else
    let idx : ℤ := if s.shuffle then (rand : ℤ)
                   else (s.current_index + 1) % (s.playlist.length : ℤ)
    (playTrack env { s with current_index := idx } idx).1

/-- NeonPlayer.prev_track (main.py lines 1073-1076): no-op on an empty
playlist; otherwise (current_index - 1) mod len, then play_track. -/
def prevTrack (env : Env) (s : PlayerState) : PlayerState :=
  if s.playlist.isEmpty then s
  else
    let idx : ℤ := (s.current_index - 1) % (s.playlist.length : ℤ)
    (playTrack env { s with current_index := idx } idx).1

def trackA : String := "a.mp3"

def failMsg : String := "Unsupported format"

/-- Initial NeonPlayer state (main.py lines 419-422, 478-482, 557-559). -/
def initState : PlayerState :=
  { playlist := [], current_index := -1, playing := false, loop := false,
    shuffle := false, current_track_length := 0, current_play_offset := 0,
    seeking := false, bg_color_1 := (10, 10, 20), bg_color_2 := (30, 0, 40),
    target_color_1 := (10, 10, 20), target_color_2 := (30, 0, 40) }

def envOk : Env :=
  { busy := false, crossfadeMs := 0, mixerFail := none, metaLength := 0,
    metaColor1 := (0, 0, 0), metaColor2 := (0, 0, 0) }

def envFail : Env := { envOk with mixerFail := some failMsg }

def playingState : PlayerState :=
  { initState with playlist := [trackA], current_index := 0, playing := true }

def pausedState : PlayerState :=
  { initState with playlist := [trackA], current_index := 0, playing := false }

/-- C9: play_track with an index outside [0, len(playlist)) — including -1
and any index on an empty playlist — returns the state untouched and issues
no mixer command or notification at all. -/
theorem c9_playTrack_out_of_range (env : Env) (s : PlayerState) (index : ℤ)
    (h : ¬(0 ≤ index ∧ index < (s.playlist.length : ℤ))) :
    playTrack env s index = (s, []) := by
  unfold playTrack
  rw [if_neg h]

/-- C9 witness: play_track at index -1 on the empty initial playlist. -/
theorem c9_witness : playTrack envOk initState (-1) = (initState, []) :=
  c9_playTrack_out_of_range envOk initState (-1) (by decide)

/-- C5 (amended): when the mixer raises during load/play, play_track surfaces
the underlying message as a blocking critical notification, performs no
retry (the only effects are the optional pre-existing fadeout and the one
message), and leaves the whole player state unchanged — in particular the
playing flag keeps its prior value instead of being reset to Stopped. -/
theorem c5_playTrack_failure (env : Env) (s : PlayerState) (index : ℤ) (msg : String)
    (hf : env.mixerFail = some msg)
    (h0 : 0 ≤ index) (h1 : index < (s.playlist.length : ℤ)) :
    (playTrack env s index).1 = s ∧
    (playTrack env s index).2 =
      (if env.busy ∧ 0 < env.crossfadeMs then [Effect.fadeout env.crossfadeMs] else [])
        ++ [Effect.criticalMsg msg] ∧
    Effect.criticalMsg msg ∈ (playTrack env s index).2 := by
  unfold playTrack
  rw [if_pos ⟨h0, h1⟩, hf]
  refine ⟨rfl, rfl, ?_⟩
  simp

/-- C5 counterexample: with the player already playing, a failing load on the
selected track leaves playing == true, so the playback state does not revert
to Stopped as the claim states. -/
theorem c5_counterexample : (playTrack envFail playingState 0).1.playing = true := by
  decide

/-- C5 witness: the failure message is surfaced for a concrete failing call. -/
theorem c5_witness : Effect.criticalMsg failMsg ∈ (playTrack envFail playingState 0).2 :=
  (c5_playTrack_failure envFail playingState 0 failMsg rfl (by decide) (by decide)).2.2

/-- C4: _seek_to records the requested offset and preserves the playing flag:
a paused player is re-paused right after the restart (so isPlaying stays
false), a playing player keeps playing. -/
theorem c4_seek_preserves_pause (b : Bool) (s : PlayerState) (seconds : ℚ) :
    ((seekTo b s seconds).1.playing = s.playing) ∧
    ((seekTo b s seconds).1.current_play_offset = seconds) ∧
    (s.playing = false → (seekTo b s seconds).1.playing = false) ∧
    (s.playing = true → (seekTo b s seconds).1.playing = true) := by
  unfold seekTo
  cases hp : s.playing <;> simp [hp]

/-- C4 witness: seek(90) on a concrete paused track. -/
theorem c4_witness :
    (seekTo true pausedState 90).1.playing = false ∧
    (seekTo true pausedState 90).1.current_play_offset = 90 :=
  ⟨(c4_seek_preserves_pause true pausedState 90).2.2.1 rfl,
   (c4_seek_preserves_pause true pausedState 90).2.1⟩

theorem playTrack_preserves (env : Env) (s : PlayerState) (index : ℤ) :
    (playTrack env s index).1.playlist = s.playlist ∧
    (playTrack env s index).1.current_index = s.current_index ∧
    (playTrack env s index).1.shuffle = s.shuffle ∧
    (playTrack env s index).1.loop = s.loop := by
  unfold playTrack
  split
  · cases henv : env.mixerFail <;> simp [henv]
  · simp

/-- Invariant of claim C1: current_index is -1 or a valid playlist index. -/
def indexInvariant (s : PlayerState) : Prop :=
  s.current_index = -1 ∨ (0 ≤ s.current_index ∧ s.current_index < (s.playlist.length : ℤ))

/-- One user-visible playlist/transport operation of the controller.  The
side condition on nextS is the contract of random.randint(0, len-1). -/
inductive PlayerStep : PlayerState → PlayerState → Prop where
  | loadT (s : PlayerState) (paths : List String) : PlayerStep s (loadTracksOp paths s)
  | loadF (s : PlayerState) (walked : List String) : PlayerStep s (loadFolderOp walked s)
  | removeS (s : PlayerState) (row : ℤ) : PlayerStep s (removeSelected row s)
  | clearS (s : PlayerState) : PlayerStep s (clearPlaylist s)
  | nextS (s : PlayerState) (env : Env) (rand : ℕ)
      (hr : ¬s.playlist.isEmpty → rand < s.playlist.length) :
      PlayerStep s (nextTrack env rand s)
  | prevS (s : PlayerState) (env : Env) : PlayerStep s (prevTrack env s)

theorem indexInvariant_loadTracks (paths : List String) (s : PlayerState)
    (h : indexInvariant s) : indexInvariant (loadTracksOp paths s) := by
  unfold loadTracksOp
  split
  · exact h
  · rename_i hne
    have hp : 0 < paths.length := by
      rw [List.isEmpty_iff] at hne
      exact List.length_pos.mpr hne
    unfold indexInvariant at h ⊢
    dsimp only
    simp only [List.length_append]
    rcases h with h | ⟨h1, h2⟩ <;> split <;> omega

theorem indexInvariant_loadFolder (walked : List String) (s : PlayerState)
    (h : indexInvariant s) : indexInvariant (loadFolderOp walked s) := by
  unfold loadFolderOp
  unfold indexInvariant at h ⊢
  dsimp only
  split
  · rename_i hc
    have hne : (s.playlist ++ walked.filter hasAudioExt) ≠ [] := by
      have h2 := hc.2
      rw [List.isEmpty_iff] at h2
      exact h2
    have hlen : 0 < (s.playlist ++ walked.filter hasAudioExt).length :=
      List.length_pos.mpr hne
    right
    refine ⟨le_refl 0, ?_⟩
    exact_mod_cast hlen
  · rcases h with h | ⟨h1, h2⟩
    · exact Or.inl h
    · right
      refine ⟨h1, ?_⟩
      have hle : s.playlist.length ≤ (s.playlist ++ walked.filter hasAudioExt).length := by
        simp [List.length_append]
      omega

theorem indexInvariant_remove (row : ℤ) (s : PlayerState)
    (h : indexInvariant s) : indexInvariant (removeSelected row s) := by
  unfold removeSelected
  split
  · rename_i hrow
    have hlen : (s.playlist.eraseIdx row.toNat).length = s.playlist.length - 1 := by
      rw [List.length_eraseIdx]
      rw [if_pos]
      omega
    unfold indexInvariant at h ⊢
    dsimp only
    simp only [hlen]
    rcases h with h | ⟨h1, h2⟩ <;> split <;> omega
  · exact h

theorem indexInvariant_clear (s : PlayerState) : indexInvariant (clearPlaylist s) :=
  Or.inl rfl

theorem indexInvariant_next (env : Env) (rand : ℕ) (s : PlayerState)
    (hr : ¬s.playlist.isEmpty → rand < s.playlist.length)
    (h : indexInvariant s) : indexInvariant (nextTrack env rand s) := by
  unfold nextTrack
  split
  · exact h
  · rename_i hne
    have hpos : (0 : ℤ) < (s.playlist.length : ℤ) := by
      rw [List.isEmpty_iff] at hne
      have := List.length_pos.mpr (by simpa using hne)
      exact_mod_cast this
    set idx : ℤ := if s.shuffle then (rand : ℤ)
                   else (s.current_index + 1) % (s.playlist.length : ℤ) with hidxdef
    have hidx : 0 ≤ idx ∧ idx < (s.playlist.length : ℤ) := by
      rw [hidxdef]
      split
      · have hrlt : rand < s.playlist.length := hr (by simp_all)
        constructor
        · exact Int.natCast_nonneg rand
        · exact_mod_cast hrlt
      · exact ⟨Int.emod_nonneg _ (by omega), Int.emod_lt_of_pos _ hpos⟩
    have hp := playTrack_preserves env { s with current_index := idx } idx
    unfold indexInvariant
    rw [hp.1, hp.2.1]
    exact Or.inr hidx

theorem indexInvariant_prev (env : Env) (s : PlayerState)
    (h : indexInvariant s) : indexInvariant (prevTrack env s) := by
  unfold prevTrack
  split
  · exact h
  · rename_i hne
    have hpos : (0 : ℤ) < (s.playlist.length : ℤ) := by
      rw [List.isEmpty_iff] at hne
      have := List.length_pos.mpr (by simpa using hne)
      exact_mod_cast this
    have hp := playTrack_preserves env
      { s with current_index := (s.current_index - 1) % (s.playlist.length : ℤ) }
      ((s.current_index - 1) % (s.playlist.length : ℤ))
    unfold indexInvariant
    rw [hp.1, hp.2.1]
    exact Or.inr ⟨Int.emod_nonneg _ (by omega), Int.emod_lt_of_pos _ hpos⟩

theorem indexInvariant_step {s t : PlayerState} (h : indexInvariant s)
    (hst : PlayerStep s t) : indexInvariant t := by
  cases hst with
  | loadT paths => exact indexInvariant_loadTracks paths _ h
  | loadF walked => exact indexInvariant_loadFolder walked _ h
  | removeS row => exact indexInvariant_remove row _ h
  | clearS => exact indexInvariant_clear _
  | nextS env rand hr => exact indexInvariant_next env rand _ hr h
  | prevS env => exact indexInvariant_prev env _ h

/-- C1: along every sequence of loadTracks/loadFolder/remove/clear/next/prev
operations current_index stays -1 or a valid index; remove clamps the index
to the new last index (or -1 on empty) exactly when it reaches past the
shrunken playlist, so it never ends at or beyond the new length; clear resets
the index to -1 and stops playback. -/
theorem c1_index_invariant :
    (∀ s t, indexInvariant s → Relation.ReflTransGen PlayerStep s t → indexInvariant t) ∧
    (∀ s row, indexInvariant s →
      (removeSelected row s).current_index < ((removeSelected row s).playlist.length : ℤ)) ∧
    (∀ s row, 0 ≤ row → row < (s.playlist.length : ℤ) →
      ((s.playlist.eraseIdx row.toNat).length : ℤ) ≤ s.current_index →
      (removeSelected row s).current_index =
        ((removeSelected row s).playlist.length : ℤ) - 1) ∧
    (∀ s, (clearPlaylist s).current_index = -1 ∧ (clearPlaylist s).playing = false) := by
  refine ⟨?_, ?_, ?_, ?_⟩
  · intro s t hs h
    induction h with
    | refl => exact hs
    | tail _ hbc ih => exact indexInvariant_step ih hbc
  · intro s row hs
    have h := indexInvariant_remove row s hs
    have hnn : (0 : ℤ) ≤ ((removeSelected row s).playlist.length : ℤ) :=
      Int.natCast_nonneg _
    rcases h with h | ⟨_, h2⟩
    · omega
    · exact h2
  · intro s row h0 h1 hcl
    unfold removeSelected
    rw [if_pos ⟨h0, h1⟩]
    simp only []
    rw [if_pos hcl]
  · intro s
    exact ⟨rfl, rfl⟩

/-- C1 witness: the invariant instantiated on the initial state with the
empty operation sequence. -/
theorem c1_witness : indexInvariant initState :=
  c1_index_invariant.1 initState initState (Or.inl rfl) Relation.ReflTransGen.refl

theorem playTrack_fst_playlist (env : Env) (s : PlayerState) (index : ℤ) :
    (playTrack env s index).1.playlist = s.playlist := by
  unfold playTrack
  split
  · cases henv : env.mixerFail <;> simp [henv]
  · simp

theorem playTrack_fst_current_index (env : Env) (s : PlayerState) (index : ℤ) :
    (playTrack env s index).1.current_index = s.current_index := by
  unfold playTrack
  split
  · cases henv : env.mixerFail <;> simp [henv]
  · simp

theorem playTrack_fst_shuffle (env : Env) (s : PlayerState) (index : ℤ) :
    (playTrack env s index).1.shuffle = s.shuffle := by
  unfold playTrack
  split
  · cases henv : env.mixerFail <;> simp [henv]
  · simp

theorem nextTrack_no_shuffle (env : Env) (r : ℕ) (s : PlayerState)
    (hne : s.playlist.isEmpty = false) (hsf : s.shuffle = false) :
    (nextTrack env r s).current_index = (s.current_index + 1) % (s.playlist.length : ℤ) ∧
    (nextTrack env r s).playlist = s.playlist ∧
    (nextTrack env r s).shuffle = false := by
  unfold nextTrack
  simp [hne, hsf, playTrack_fst_current_index, playTrack_fst_playlist, playTrack_fst_shuffle]

theorem nextTrack_shuffle (env : Env) (r : ℕ) (s : PlayerState)
    (hne : s.playlist.isEmpty = false) (hsf : s.shuffle = true) :
    (nextTrack env r s).current_index = (r : ℤ) := by
  unfold nextTrack
  simp [hne, hsf, playTrack_fst_current_index]

/-- Indices visited by k consecutive next_track calls with shuffle off (the
rand argument of each call is irrelevant there and fixed to 0). -/
def visitIndices (env : Env) (s : PlayerState) : ℕ → List ℤ
  | 0 => []
  | k + 1 => (nextTrack env 0 s).current_index :: visitIndices env (nextTrack env 0 s) k

theorem visitIndices_no_shuffle (env : Env) : ∀ (k : ℕ) (s : PlayerState),
    s.playlist.isEmpty = false → s.shuffle = false →
    visitIndices env s k =
      (List.range k).map
        (fun j : ℕ => (s.current_index + (j : ℤ) + 1) % (s.playlist.length : ℤ)) := by
  intro k
  induction k with
  | zero =>
    intro s h1 h2
    simp [visitIndices]
  | succ k ih =>
    intro s h1 h2
    have hn := nextTrack_no_shuffle env 0 s h1 h2
    have h1a : (nextTrack env 0 s).playlist.isEmpty = false := by
      rw [hn.2.1]
      exact h1
    have hrec : visitIndices env s (k + 1) =
        (nextTrack env 0 s).current_index :: visitIndices env (nextTrack env 0 s) k := rfl
    rw [hrec, ih (nextTrack env 0 s) h1a hn.2.2, hn.1, hn.2.1]
    rw [List.range_succ_eq_map, List.map_cons, List.map_map]
    congr 1
    · norm_num
    · apply List.map_congr_left
      intro j hj
      have hkey := Int.emod_add_emod (s.current_index + 1) (s.playlist.length : ℤ) ((j : ℤ) + 1)
      have hl : (s.current_index + 1) % (s.playlist.length : ℤ) + (j : ℤ) + 1 =
          (s.current_index + 1) % (s.playlist.length : ℤ) + ((j : ℤ) + 1) := by ring
      simp only [Function.comp]
      rw [hl, hkey]
      push_cast
      ring_nf

/-- C7: next_track is a no-op on an empty playlist; with shuffle enabled the
new index is the randint result, hence in [0, len); with shuffle disabled N
consecutive calls from any valid start index visit exactly the rotation
(start+1) mod N, (start+2) mod N, ..., start. -/
theorem c7_next_track :
    (∀ env r s, s.playlist.isEmpty = true → nextTrack env r s = s) ∧
    (∀ env r (s : PlayerState), s.shuffle = true → s.playlist.isEmpty = false →
      r < s.playlist.length →
      (nextTrack env r s).current_index = (r : ℤ) ∧
      0 ≤ ((r : ℤ)) ∧ ((r : ℤ)) < (s.playlist.length : ℤ)) ∧
    (∀ env (s : PlayerState), s.shuffle = false → s.playlist.isEmpty = false →
      visitIndices env s s.playlist.length =
        (List.range s.playlist.length).map
          (fun j : ℕ => (s.current_index + (j : ℤ) + 1) % (s.playlist.length : ℤ))) ∧
    (∀ env (s : PlayerState), s.shuffle = false → s.playlist.isEmpty = false →
      0 ≤ s.current_index → s.current_index < (s.playlist.length : ℤ) →
      (visitIndices env s s.playlist.length).getLast? = some s.current_index) := by
  refine ⟨?_, ?_, ?_, ?_⟩
  · intro env r s h
    unfold nextTrack
    simp [h]
  · intro env r s hsf hne hr
    exact ⟨nextTrack_shuffle env r s hne hsf, Int.natCast_nonneg r, by exact_mod_cast hr⟩
  · intro env s hsf hne
    exact visitIndices_no_shuffle env s.playlist.length s hne hsf
  · intro env s hsf hne h0 h1
    have hN : 0 < s.playlist.length := by
      cases hl : s.playlist with
      | nil => rw [hl] at hne; simp at hne
      | cons a l => simp
    rw [visitIndices_no_shuffle env s.playlist.length s hne hsf]
    rw [List.getLast?_eq_getElem?]
    rw [List.length_map, List.length_range]
    rw [List.getElem?_map,
        List.getElem?_range (by omega : s.playlist.length - 1 < s.playlist.length)]
    rw [Option.map_some']
    congr 1
    have hcast : ((s.playlist.length - 1 : ℕ) : ℤ) + 1 = (s.playlist.length : ℤ) := by
      omega
    rw [add_assoc, hcast]
    have hmul : s.current_index + (s.playlist.length : ℤ) =
        s.current_index + (s.playlist.length : ℤ) * 1 := by ring
    rw [hmul, Int.add_mul_emod_self_left]
    exact Int.emod_eq_of_lt h0 h1

def trackB : String := "b.mp3"

def twoTrackState : PlayerState :=
  { initState with playlist := [trackA, trackB], current_index := 0 }

/-- C7 witness: from index 0 of a two-track playlist, two consecutive
next_track calls visit 1 then 0. -/
theorem c7_witness : visitIndices envOk twoTrackState 2 = [1, 0] := by
  have h := c7_next_track.2.2.1 envOk twoTrackState rfl rfl
  rw [show twoTrackState.playlist.length = 2 from rfl] at h
  rw [h]
  decide

/-- Progress-display part of NeonPlayer.check_end (main.py lines 1107-1127):
with a non-negative mixer position and no seek-drag in progress it returns
the label value (seconds) and the slider value; elapsed is
pos_ms/1000 + saved offset, clamped to the track length when that is known,
and turned into the cyclic value int((elapsed % 1) * slider_max) when the
length is unknown.  Returns none when the slider/label are not updated. -/
def checkEndDisplay (posMs : ℤ) (seeking : Bool) (offset trackLen : ℚ)
    (sliderMax : ℕ) : Option (ℚ × ℤ) :=
  if 0 ≤ posMs ∧ seeking = false then
    let elapsed : ℚ := (posMs : ℚ) / 1000 + offset
    if 0 < trackLen then
      let e := if trackLen < elapsed then trackLen else elapsed
      some (e, pyInt e)
    else
      some (elapsed, pyInt ((elapsed - (⌊elapsed⌋ : ℚ)) * (sliderMax : ℚ)))
  else none

/-- C3: on a poller tick with a non-negative reported position, the elapsed
time is reported/1000 + saved offset, and with a known positive track length
both the label value and the slider value are clamped to the track length. -/
theorem c3_elapsed_clamp (posMs : ℤ) (offset trackLen : ℚ) (sliderMax : ℕ)
    (hpos : 0 ≤ posMs) (hoff : 0 ≤ offset) (hlen : 0 < trackLen) :
    checkEndDisplay posMs false offset trackLen sliderMax =
      some (min ((posMs : ℚ) / 1000 + offset) trackLen,
            pyInt (min ((posMs : ℚ) / 1000 + offset) trackLen)) ∧
    min ((posMs : ℚ) / 1000 + offset) trackLen ≤ trackLen ∧
    (pyInt (min ((posMs : ℚ) / 1000 + offset) trackLen) : ℚ) ≤ trackLen := by
  have hel : (0 : ℚ) ≤ (posMs : ℚ) / 1000 + offset := by
    have : (0 : ℚ) ≤ (posMs : ℚ) := by exact_mod_cast hpos
    positivity
  have hminn : (0 : ℚ) ≤ min ((posMs : ℚ) / 1000 + offset) trackLen :=
    le_min hel (le_of_lt hlen)
  refine ⟨?_, min_le_right _ _, ?_⟩
  · unfold checkEndDisplay
    rw [if_pos ⟨hpos, rfl⟩, if_pos hlen]
    have hmin : (if trackLen < (posMs : ℚ) / 1000 + offset then trackLen
        else (posMs : ℚ) / 1000 + offset) =
        min ((posMs : ℚ) / 1000 + offset) trackLen := by
      rcases le_or_lt ((posMs : ℚ) / 1000 + offset) trackLen with h | h
      · rw [if_neg (not_lt.mpr h), min_eq_left h]
      · rw [if_pos h, min_eq_right (le_of_lt h)]
    rw [hmin]
  · rw [pyInt_of_nonneg hminn]
    calc ((⌊min ((posMs : ℚ) / 1000 + offset) trackLen⌋ : ℤ) : ℚ)
        ≤ min ((posMs : ℚ) / 1000 + offset) trackLen := Int.floor_le _
      _ ≤ trackLen := min_le_right _ _

/-- C3 witness: a reported position of 65000 ms with offset 0 on a 180 s
track yields elapsed 65.0 s on both the label and the slider. -/
theorem c3_witness : checkEndDisplay 65000 false 0 180 100 = some (65, 65) := by
  have h := (c3_elapsed_clamp 65000 0 180 100 (by norm_num) (by norm_num)
    (by norm_num)).1
  rw [h]
  norm_num [pyInt]

/-- C8: when the track length is unknown (0) and the reported position is
non-negative, the degraded cyclic slider value int((elapsed % 1) * max) is
always between 0 and the slider maximum, for any saved offset. -/
theorem c8_unknown_length_display (posMs : ℤ) (offset : ℚ) (sliderMax : ℕ)
    (hpos : 0 ≤ posMs) :
    ∃ lbl sl, checkEndDisplay posMs false offset 0 sliderMax = some (lbl, sl) ∧
      0 ≤ sl ∧ sl ≤ (sliderMax : ℤ) := by
  set e : ℚ := (posMs : ℚ) / 1000 + offset with he
  have hf0 : (0 : ℚ) ≤ e - (⌊e⌋ : ℚ) := by
    have := Int.floor_le e
    linarith
  have hf1 : e - (⌊e⌋ : ℚ) < 1 := by
    have := Int.lt_floor_add_one e
    linarith
  have hm0 : (0 : ℚ) ≤ (sliderMax : ℚ) := by positivity
  have hprod0 : (0 : ℚ) ≤ (e - (⌊e⌋ : ℚ)) * (sliderMax : ℚ) := mul_nonneg hf0 hm0
  have hprod1 : (e - (⌊e⌋ : ℚ)) * (sliderMax : ℚ) ≤ (sliderMax : ℚ) := by
    nlinarith
  refine ⟨e, pyInt ((e - (⌊e⌋ : ℚ)) * (sliderMax : ℚ)), ?_, ?_, ?_⟩
  · unfold checkEndDisplay
    rw [if_pos ⟨hpos, rfl⟩, if_neg (by norm_num)]
  · rw [pyInt_of_nonneg hprod0]
    exact Int.floor_nonneg.mpr hprod0
  · rw [pyInt_of_nonneg hprod0]
    have := Int.floor_le_floor hprod1
    rw [Int.floor_natCast] at this
    exact this

/-- C8 witness: a concrete unknown-length tick stays inside the slider
range. -/
theorem c8_witness :
    ∃ lbl sl, checkEndDisplay 2500 false 0 0 100 = some (lbl, sl) ∧
      0 ≤ sl ∧ sl ≤ (100 : ℤ) :=
  c8_unknown_length_display 2500 0 100 (by norm_num)

/-- Chunk loop of MarketplaceDialog._download_selected.worker (main.py lines
302-312): empty chunks are skipped, each written chunk advances the byte
count and emits int((written / total) * 100). -/
def emitsFrom (total : ℕ) (written : ℕ) : List ℕ → List ℕ
  | [] => []
  | c :: cs =>
    if c = 0 then emitsFrom total written cs
    else ((written + c) * 100 / total) :: emitsFrom total (written + c) cs

/-- Progress percentages emitted by the download worker (main.py lines
289-315): with no declared content length the whole body is written at once
and 100 is emitted; with a declared length the chunk loop runs. -/
def downloadEmits (contentLength : Option ℕ) (chunks : List ℕ) : List ℕ :=
  match contentLength with
  | none => [100]
  | some total => emitsFrom total 0 chunks

theorem emitsFrom_lower_bound (total : ℕ) : ∀ (cs : List ℕ) (w : ℕ),
    ∀ x ∈ emitsFrom total w cs, w * 100 / total ≤ x := by
  intro cs
  induction cs with
  | nil => intro w x hx; simp [emitsFrom] at hx
  | cons c cs ih =>
    intro w x hx
    unfold emitsFrom at hx
    split at hx
    · have h := ih w x hx
      omega
    · rcases List.mem_cons.mp hx with h | h
      · subst h
        exact Nat.div_le_div_right (Nat.mul_le_mul_right 100 (Nat.le_add_right w c))
      · have h2 := ih (w + c) x h
        have h3 : w * 100 / total ≤ (w + c) * 100 / total :=
          Nat.div_le_div_right (Nat.mul_le_mul_right 100 (Nat.le_add_right w c))
        omega

theorem emitsFrom_pairwise (total : ℕ) : ∀ (cs : List ℕ) (w : ℕ),
    List.Pairwise (fun a b => a ≤ b) (emitsFrom total w cs) := by
  intro cs
  induction cs with
  | nil => intro w; simp [emitsFrom]
  | cons c cs ih =>
    intro w
    unfold emitsFrom
    split
    · exact ih w
    · refine List.pairwise_cons.mpr ⟨?_, ih (w + c)⟩
      intro x hx
      exact emitsFrom_lower_bound total cs (w + c) x hx

set_option maxRecDepth 100000 in
/-- C6: with no declared content length the progress jumps straight to 100;
with a declared length the emitted percentages are int(written/total*100)
after each nonempty chunk and are monotonically non-decreasing; for the
concrete 1,000,000-byte download in 8192-byte chunks the final emission is
exactly 100 and every earlier one is below 100. -/
theorem c6_download_progress :
    (∀ chunks, downloadEmits none chunks = [100]) ∧
    (∀ total chunks, 0 < total →
      List.Pairwise (fun a b => a ≤ b) (downloadEmits (some total) chunks)) ∧
    ((downloadEmits (some 1000000) (List.replicate 122 8192 ++ [576])).getLast?
        = some 100 ∧
     ∀ x ∈ (downloadEmits (some 1000000)
        (List.replicate 122 8192 ++ [576])).dropLast, x < 100) := by
  refine ⟨?_, ?_, ?_, ?_⟩
  · intro chunks
    rfl
  · intro total chunks h
    exact emitsFrom_pairwise total chunks 0
  · decide
  · decide

/-- C6 witness: monotonicity instantiated on the concrete 1,000,000-byte
download. -/
theorem c6_witness :
    List.Pairwise (fun a b => a ≤ b)
      (downloadEmits (some 1000000) (List.replicate 122 8192 ++ [576])) :=
  c6_download_progress.2.1 1000000 (List.replicate 122 8192 ++ [576]) (by norm_num)

/-- Comparison used by get_dominant_colors (main.py line 70):
sorted(colors, key=count, reverse=True), i.e. descending pixel count.  The
second component is the RGBA pixel tuple that getcolors yields once
putalpha(0) has promoted the quantized image out of P mode. -/
def countGe (a b : ℕ × (ℕ × ℕ × ℕ × ℕ)) : Prop := b.1 ≤ a.1

instance : DecidableRel countGe := fun a b => inferInstanceAs (Decidable (b.1 ≤ a.1))

instance : IsTotal (ℕ × (ℕ × ℕ × ℕ × ℕ)) countGe := ⟨fun a b => le_total b.1 a.1⟩

instance : IsTrans (ℕ × (ℕ × ℕ × ℕ × ℕ)) countGe := ⟨fun _ _ _ hab hbc => le_trans hbc hab⟩

/-- Colors returned by the except branch of get_dominant_colors (main.py
line 83). -/
def fallbackColors : List (ℕ × ℕ × ℕ) := [(20, 20, 20), (40, 0, 60)]

/-- get_dominant_colors (main.py lines 54-83).  getcolorsRes is the
(count, pixel) list produced by result.getcolors on line 67, none when an
earlier step of the try block raises.  Because result.putalpha(0) on line 66
converts the freshly quantized P image to RGBA (Pillow promotes any
non-alpha mode), each pixel is an RGBA tuple and result.getpalette()
(paletteRes, kept as a parameter for the assignment on line 74) is None; the
sort by count on line 70 still succeeds, but the first loop iteration then
raises TypeError at palette[index*3 : index*3+3], since index*3 is tuple
repetition and a tuple is not a valid slice bound.  The blanket except
therefore returns the fallback pair whenever ordered[:num_colors] is
non-empty, and the loop body never runs — returning the empty list — when
it is empty. -/
def getDominantColors (getcolorsRes : Option (List (ℕ × (ℕ × ℕ × ℕ × ℕ))))
    (_paletteRes : Option (List ℕ)) (numColors : ℕ) : List (ℕ × ℕ × ℕ) :=
  match getcolorsRes with
  | none => fallbackColors
  | some colors =>
    match (List.insertionSort countGe colors).take numColors with
    | [] => []
    | _ :: _ => fallbackColors

theorem getDominantColors_cons_eq (colors : List (ℕ × (ℕ × ℕ × ℕ × ℕ)))
    (p : Option (List ℕ)) (n : ℕ) (a : ℕ × (ℕ × ℕ × ℕ × ℕ))
    (l : List (ℕ × (ℕ × ℕ × ℕ × ℕ)))
    (h : (List.insertionSort countGe colors).take n = a :: l) :
    getDominantColors (some colors) p n = fallbackColors := by
  show (match (List.insertionSort countGe colors).take n with
        | [] => ([] : List (ℕ × ℕ × ℕ))
        | _ :: _ => fallbackColors) = fallbackColors
  rw [h]

/-- C10 (code bug): get_dominant_colors never reaches its success path.  For
every image whose quantization reports at least one color, the palette
lookup raises — putalpha(0) has converted the image to RGBA — and the
function returns exactly the fixed fallback pair RGB(20,20,20), RGB(40,0,60)
independently of the palette, never the count-ordered palette colors that
the claim and the function's own docstring describe. -/
theorem c10_always_fallback :
    (∀ p n, getDominantColors none p n = fallbackColors) ∧
    (∀ colors p n, colors ≠ [] → 0 < n →
      getDominantColors (some colors) p n = fallbackColors) ∧
    fallbackColors = [(20, 20, 20), (40, 0, 60)] := by
  refine ⟨fun p n => rfl, ?_, rfl⟩
  intro colors p n hne hn
  cases hch : (List.insertionSort countGe colors).take n with
  | nil =>
    exfalso
    have hlen := congrArg List.length hch
    rw [List.length_take, List.length_insertionSort] at hlen
    have hc : 0 < colors.length := List.length_pos.mpr hne
    simp only [List.length_nil] at hlen
    omega
  | cons a l => exact getDominantColors_cons_eq colors p n a l hch

/-- C10 witness: a concrete two-color quantization result ends in the
fallback pair, regardless of the palette. -/
theorem c10_witness :
    getDominantColors (some [(200, (255, 0, 0, 0)), (100, (0, 0, 255, 0))]) none 2 =
      fallbackColors :=
  c10_always_fallback.2.1 [(200, (255, 0, 0, 0)), (100, (0, 0, 255, 0))] none 2
    (by simp) (by norm_num)
